import Mathlib

/-
Verification development for the Lea CLI (scripts/build.mjs plus the bundled
CLI source).  The JavaScript is shallowly embedded: JS composites (arrays,
plain objects, Maps, typed-array views) live in an explicit heap indexed by
Nat ids, so reference identity, sharing and cycles are representable; JS
numbers that the program manipulates are integers and are modelled as Int;
BigInt is Int; fallible operations return Except String; external
collaborators (the SDK connection, the filesystem, subprocess spawning) are
modelled as environment-supplied outcomes.
-/

namespace Lea

/-- JSON-safe output values produced by the serializer (the result of conv). -/
inductive SVal : Type where
  | snull : SVal
  | sundef : SVal
  | sbool : Bool → SVal
  | snum : Int → SVal
  | sstr : String → SVal
  | sarr : List SVal → SVal
  | sobj : List (String × SVal) → SVal
  deriving Repr

/-- JS runtime values as seen by serialize: primitives, or a reference into
the heap.  Every JS composite has reference identity, so composites appear
only as heap objects. -/
inductive HVal : Type where
  | vnull : HVal
  | vundef : HVal
  | vbool : Bool → HVal
  | vnum : Int → HVal
  | vbig : Int → HVal
  | vstr : String → HVal
  | vref : Nat → HVal
  deriving Repr, DecidableEq

/-- Kinds of ArrayBuffer views we model: unsigned byte arrays, signed byte
arrays, and DataView.  The view carries the raw bytes of the region of the
underlying buffer it covers. -/
inductive ViewKind : Type where
  | uint8 : ViewKind
  | int8 : ViewKind
  | dataview : ViewKind
  deriving Repr, DecidableEq

/-- Heap objects: ArrayBuffer views, Maps (string-coerced keys), Arrays and
plain objects (own enumerable string-keyed entries, in order). -/
inductive HObj : Type where
  | view : ViewKind → List (Fin 256) → HObj
  | map : List (String × HVal) → HObj
  | arr : List HVal → HObj
  | obj : List (String × HVal) → HObj
  deriving Repr

/-- A JS heap: an association list from object ids to objects. -/
abbrev Heap : Type := List (Nat × HObj)

/-- Little-endian decimal digits of a natural number (empty for 0). -/
def digitsLE (n : Nat) : List Nat :=
  if h : n = 0 then [] else (n % 10) :: digitsLE (n / 10)
  termination_by n
  decreasing_by exact Nat.div_lt_self (Nat.pos_of_ne_zero h) (by omega)

/-- The ASCII character of a decimal digit. -/
def digitChar (d : Nat) : Char := Char.ofNat (48 + d)

/-- Decimal digit characters of a natural number, most significant first. -/
def natChars (n : Nat) : List Char :=
  if n = 0 then ['0'] else (digitsLE n).reverse.map digitChar

/-- Decimal characters of an integer, with a leading minus sign when
negative.  Models the output of the JS BigInt toString method. -/
def intChars (n : Int) : List Char :=
  if n < 0 then '-' :: natChars n.natAbs else natChars n.toNat

/-- Models the JS expression v.toString() on a BigInt v: its decimal string. -/
def jsBigIntToString (n : Int) : String := String.mk (intChars n)

/-- Conversion of primitives inside conv: BigInt becomes its decimal string,
every other primitive is returned as-is. -/
def primConv : HVal → SVal
  | .vnull => .snull
  | .vundef => .sundef
  | .vbool b => .sbool b
  | .vnum n => .snum n
  | .vbig n => .sstr (jsBigIntToString n)
  | .vstr s => .sstr s
  | .vref _ => .snull

/-- Conversion of an ArrayBuffer view, as conv does it: a DataView is read
as the raw bytes of its region (the source wraps it in a byte array first);
any other view goes through Array.from, i.e. element-wise JS element values:
unsigned bytes for a Uint8Array, signed values for an Int8Array. -/
def viewConv : ViewKind → List (Fin 256) → SVal
  | .uint8, bs => .sarr (bs.map fun b => .snum (b.val : Int))
  | .dataview, bs => .sarr (bs.map fun b => .snum (b.val : Int))
  | .int8, bs =>
      .sarr (bs.map fun b =>
        .snum (if b.val < 128 then (b.val : Int) else (b.val : Int) - 256))

/-- Convert a list of element values left to right, threading the seen set
(the source's conv closure mutates one shared WeakSet). -/
def convSeq (rec : List Nat → HVal → Option (SVal × List Nat)) :
    List Nat → List HVal → Option (List SVal × List Nat)
  | seen, [] => some ([], seen)
  | seen, v :: vs =>
      (rec seen v).bind fun p =>
        (convSeq rec p.2 vs).map fun q => (p.1 :: q.1, q.2)

/-- Convert the entries of a Map or plain object left to right, threading
the seen set. -/
def convEntries (rec : List Nat → HVal → Option (SVal × List Nat)) :
    List Nat → List (String × HVal) → Option (List (String × SVal) × List Nat)
  | seen, [] => some ([], seen)
  | seen, (k, v) :: es =>
      (rec seen v).bind fun p =>
        (convEntries rec p.2 es).map fun q => ((k, p.1) :: q.1, q.2)

/-- Fuel-exhausted base case of conv: primitives and already-seen references
still convert; entering a fresh composite is out of fuel. -/
def convBase (seen : List Nat) : HVal → Option (SVal × List Nat)
  | .vref id =>
      if id ∈ seen then some (.sstr "[Circular]", seen) else none
  | v => some (primConv v, seen)

/-- One level of the source's conv: primitives pass through primConv; an
object already in the seen set becomes the [Circular] sentinel; otherwise
the object is added to seen and converted by kind (view, Map, Array, plain
object), children handled by the rec argument. -/
def convStep (heap : Heap)
    (rec : List Nat → HVal → Option (SVal × List Nat))
    (seen : List Nat) : HVal → Option (SVal × List Nat)
  | .vref id =>
      if id ∈ seen then some (.sstr "[Circular]", seen)
      else
        match List.lookup id heap with
        | none => none
        | some o =>
          let seen1 := id :: seen
          match o with
          | .view k buf => some (viewConv k buf, seen1)
          | .map es => (convEntries rec seen1 es).map fun q => (.sobj q.1, q.2)
          | .arr vs => (convSeq rec seen1 vs).map fun q => (.sarr q.1, q.2)
          | .obj es => (convEntries rec seen1 es).map fun q => (.sobj q.1, q.2)
  | v => some (primConv v, seen)

/-- The source's conv, with explicit fuel (recursion into the heap) and an
explicit seen set in place of the mutated WeakSet. -/
def conv (heap : Heap) : Nat → List Nat → HVal → Option (SVal × List Nat)
  | 0, seen, v => convBase seen v
  | fuel + 1, seen, v => convStep heap (conv heap fuel) seen v

/-- The source's serialize: run conv on the value with a fresh seen set.
Fuel one larger than the heap suffices (proved below), so a some result is
the JS return value. -/
def serialize (heap : Heap) (v : HVal) : Option SVal :=
  (conv heap (heap.length + 1) [] v).map Prod.fst

/-- A value is closed for a heap when any reference it carries points to an
object of the heap.  JS references never dangle, so every JS value is closed
for the runtime heap. -/
def valClosed (heap : Heap) : HVal → Bool
  | .vref id => (List.lookup id heap).isSome
  | _ => true

/-- The child values of a heap object, in conversion order. -/
def objChildren : HObj → List HVal
  | .view _ _ => []
  | .map es => es.map Prod.snd
  | .arr vs => vs
  | .obj es => es.map Prod.snd

/-- A heap is closed when the children of all its objects are closed. -/
def heapClosed (heap : Heap) : Bool :=
  heap.all fun p => (objChildren p.2).all (valClosed heap)

/-- Number of heap ids not yet in the seen set; the measure that bounds the
fuel conv needs. -/
def freshCount (heap : Heap) (seen : List Nat) : Nat :=
  ((heap.map Prod.fst).toFinset \ seen.toFinset).card

/-- JS values an amount flag can hold when handed to toBigInt: a BigInt, a
number (only integral numbers occur in this program), a string, or any
other value. -/
inductive Amount : Type where
  | abig : Int → Amount
  | anum : Int → Amount
  | astr : String → Amount
  | aother : Amount
  deriving Repr, DecidableEq

/-- Parse a run of decimal digit characters with an accumulator; none if a
non-digit appears. -/
def parseDigitsAcc (acc : Nat) : List Char → Option Nat
  | [] => some acc
  | c :: cs =>
      if c.isDigit then parseDigitsAcc (acc * 10 + (c.toNat - 48)) cs
      else none

/-- Models the JS builtin BigInt applied to a string, on trimmed decimal
inputs: the empty string is 0, otherwise an optional sign followed only by
decimal digits; anything else throws, giving none.  (The builtin also
accepts surrounding whitespace and 0x, 0o and 0b prefixes, which this
program never produces.) -/
def jsStringToBigInt : List Char → Option Int
  | [] => some 0
  | c :: rest =>
      if c = '-' then
        if rest.isEmpty then none
        else (parseDigitsAcc 0 rest).map fun m => -(m : Int)
      else if c = '+' then
        if rest.isEmpty then none
        else (parseDigitsAcc 0 rest).map fun m => (m : Int)
      else (parseDigitsAcc 0 (c :: rest)).map fun m => (m : Int)

/-- Does the character list end with the letter n?  Models the endsWith
check toBigInt uses to strip a BigInt literal suffix. -/
def endsWithN (l : List Char) : Bool :=
  match l.getLast? with
  | some c => c == 'n'
  | none => false

/-- The source's toBigInt: a BigInt passes through, a number converts via
the BigInt constructor, a string first drops one trailing n if present and
then goes through BigInt on the string; any other value throws Invalid
amount. -/
def toBigInt : Amount → Except String Int
  | .abig n => .ok n
  | .anum n => .ok n
  | .astr s =>
      let cs := if endsWithN s.data then s.data.dropLast else s.data
      match jsStringToBigInt cs with
      | some n => .ok n
      | none => .error "Cannot convert string to a BigInt"
  | .aother => .error "Invalid amount"

/-- Contents of a Uint8Array: JS guarantees each element is 0..255. -/
abbrev Bytes : Type := List (Fin 256)

/-- Element of a candidate JS array for the last-tx-hash: an integral
number, or any other value (which fails the Number.isInteger test). -/
inductive JElem : Type where
  | num : Int → JElem
  | nonInt : JElem
  deriving Repr, DecidableEq

/-- Shapes of the lastTxHash field the source distinguishes: a Uint8Array,
a JS Array, or some other value (neither branch applies). -/
inductive LastVal : Type where
  | u8 : Bytes → LastVal
  | jarr : List JElem → LastVal
  | other : LastVal

/-- An entry of the decoded result map; lastTxHash may be absent. -/
structure BaseEntry where
  lastTxHash : Option LastVal

/-- The decoded field of a response: a Map-like value (truthy, with a get
function), or anything else including falsy values. -/
inductive Decoded : Type where
  | mapLike : List (String × BaseEntry) → Decoded
  | notMap : Decoded

/-- A transaction response as read by the prefetcher.  executionStatus and
abortCode are some exactly when the field holds a JS number, matching the
typeof checks; NaN does not occur in this model. -/
structure TxResponse where
  ok : Bool
  executionStatus : Option Int
  abortCode : Option Int
  decoded : Decoded

/-- Outcome of the awaited network send inside the prefetcher: the promise
either throws or returns a response value (possibly undefined). -/
inductive NetOutcome : Type where
  | threw : String → NetOutcome
  | ret : Option TxResponse → NetOutcome

/-- Base program (basePod) address key used in decoded result maps. -/
def BASE_POD_HEX : String :=
  "1111111111111111111111111111111111111111111111111111111111111111"

/-- JS ToUint8 conversion applied by the Uint8Array constructor to array
elements (reduction modulo 256). -/
def intToByte (n : Int) : Fin 256 :=
  ⟨(n % 256).toNat, by
    have h1 := Int.emod_nonneg n (by norm_num : (256 : Int) ≠ 0)
    have h2 := Int.emod_lt_of_pos n (by norm_num : (0 : Int) < 256)
    omega⟩

def elemToByte : JElem → Fin 256
  | .num n => intToByte n
  | .nonInt => 0

/-- The per-element test the source applies to a candidate array:
Number.isInteger and the 0..255 range. -/
def elemOk : JElem → Bool
  | .num n => decide (0 ≤ n) && decide (n ≤ 255)
  | .nonInt => false

/-- Extraction of the last-tx-hash from a decoded result: look up the
basePod key, read lastTxHash, accept a Uint8Array of length 32, or an
array of in-range integers whose converted byte array has length 32;
anything else gives undefined. -/
def lastValTo32 : Option LastVal → Option Bytes
  | some (.u8 bs) => if bs.length = 32 then some bs else none
  | some (.jarr xs) =>
      if xs.all elemOk then
        let bytes := xs.map elemToByte
        if bytes.length = 32 then some bytes else none
      else none
  | some .other => none
  | none => none

def extractLast : Decoded → Option Bytes
  | .notMap => none
  | .mapLike entries =>
      lastValTo32 ((List.lookup BASE_POD_HEX entries).bind BaseEntry.lastTxHash)

/-- The optional-chained res?.ok, with undefined falsy. -/
def okOf : Option TxResponse → Bool
  | some r => r.ok
  | none => false

def execOf (res : Option TxResponse) : Option Int :=
  res.bind TxResponse.executionStatus

def abortOf (res : Option TxResponse) : Option Int :=
  res.bind TxResponse.abortCode

/-- The not-ok or nonzero-exec or nonzero-abort guard of the prefetcher. -/
def guardFails (res : Option TxResponse) : Bool :=
  !okOf res
    || (match execOf res with | some e => e != 0 | none => false)
    || (match abortOf res with | some a => a != 0 | none => false)

/-- The try body of fetchPrevTxHashFromNetwork once the send has returned:
guard, then extraction from the decoded map. -/
def fetchTry (res : Option TxResponse) : Option Bytes :=
  if guardFails res then none
  else
    match res with
    | some r => extractLast r.decoded
    | none => none

/-- The try block: a throwing send propagates, otherwise compute fetchTry. -/
def fetchBody : NetOutcome → Except String (Option Bytes)
  | .threw m => .error m
  | .ret res => .ok (fetchTry res)

/-- The source's fetchPrevTxHashFromNetwork: its catch turns any thrown
error into the undefined result, so the try body's value passes through
and an exception becomes none. -/
def fetchPrevTxHashFromNetwork (o : NetOutcome) : Except String (Option Bytes) :=
  match fetchBody o with
  | .error _ => .ok none
  | .ok v => .ok v

/-- The options object passed as the extra build argument; the prevTxHash
key is present exactly when the object literal includes it. -/
structure BuildOpts where
  prevTxHash : Option Bytes
  deriving Repr, DecidableEq

/-- The source's buildWithPrevHash: run the prefetch, then call buildFn
once with the original arguments and one extra options object.  A
Uint8Array is always truthy, so the conditional object literal includes
the key exactly when the prefetch found a hash. -/
def buildWithPrevHash {α β : Type} (o : NetOutcome)
    (buildFn : α → BuildOpts → β) (args : α) : Except String β :=
  (fetchPrevTxHashFromNetwork o).map fun prevTxHash =>
    buildFn args
      (match prevTxHash with
        | some h => { prevTxHash := some h }
        | none => { prevTxHash := none })

/-- A transaction-send result as read by sendAndReport. -/
structure SendResult where
  ok : Bool
  status : Int
  txId : Option String
  executionStatus : Option Int
  abortCode : Option Int
  decoded : HVal

/-- Outcome of the awaited send inside sendAndReport. -/
inductive SendOutcome : Type where
  | threw : String → SendOutcome
  | ret : SendResult → SendOutcome

def boolStr : Bool → String
  | true => "true"
  | false => "false"

/-- Template rendering of an optional numeric field under the nullish
coalescing with the empty string. -/
def optIntStr : Option Int → String
  | some n => jsBigIntToString n
  | none => ""

/-- The diagnostic status line sendAndReport writes to stderr. -/
def statusLine (res : SendResult) : String :=
  "[lea] ok=" ++ boolStr res.ok ++ " status=" ++ jsBigIntToString res.status
    ++ " txId=" ++ res.txId.getD "" ++ " exec=" ++ optIntStr res.executionStatus
    ++ " abort=" ++ optIntStr res.abortCode ++ "\n"

/-- Observable effects of one sendAndReport call: lines written to stderr
and stdout, file writes as path-content pairs, and whether the process
exit code was set to 1. -/
structure Report where
  stderrLines : List String
  stdoutLines : List String
  fileWrites : List (String × String)
  exit1 : Bool
  deriving Repr

/-- The source's sendAndReport, parametrised by the JSON.stringify builtin.
On a returned response: optional status line to stderr, the serialized
decoded value as JSON to stdout and to the outfile when given, exit code 1
when the response is not ok.  On a thrown error (the catch): an error JSON
object through the same dual-output path and exit code 1.  The error
branch of the serialize fuel cannot occur on closed heaps (proved above),
matching the JS serializer, which always terminates. -/
def sendAndReport (stringify : SVal → String) (heap : Heap)
    (outcome : SendOutcome) (outfile : Option String) (quiet : Bool) :
    Except String Report :=
  match outcome with
  | .ret res =>
      match serialize heap res.decoded with
      | some decodedOnly =>
          let jsonStr := stringify decodedOnly
          .ok
            { stderrLines := if quiet then [] else [statusLine res]
              stdoutLines := [jsonStr ++ "\n"]
              fileWrites :=
                match outfile with
                | some f => [(f, jsonStr ++ "\n")]
                | none => []
              exit1 := !res.ok }
      | none => .error "serialize ran out of fuel"
  | .threw e =>
      let jsonStr := stringify (.sobj [("error", .sstr e)])
      .ok
        { stderrLines := if quiet then [] else ["[lea] error: " ++ e ++ "\n"]
          stdoutLines := [jsonStr ++ "\n"]
          fileWrites :=
            match outfile with
            | some f => [(f, jsonStr ++ "\n")]
            | none => []
          exit1 := true }

/-- The source's isJsonPath: case-insensitive .json suffix check. -/
def isJsonPath (p : String) : Bool := p.toLower.endsWith ".json"

/-- JS truthiness of an optional string (undefined and the empty string
are falsy). -/
def jsTruthyStr : Option String → Bool
  | some s => s != ""
  | none => false

/-- A parsed JSON keyfile as the CLI reads it: whether the keyset field is
present and truthy, and the address field when present (already coerced to
a string). -/
structure JFile where
  keysetTruthy : Bool
  address : Option String

/-- A signer returned by readSigner; the keyset is opaque to this tool and
carried only as its truthiness. -/
structure Signer where
  keyset : Bool
  address : String
  deriving Repr, DecidableEq

/-- The parsed command-line options; cluster starts at mainnet-beta, and a
value-taking flag at the end of the arguments shifts undefined. -/
structure ParsedArgs where
  command : Option String
  cluster : Option String
  key : Option String
  toFlag : Option String
  amount : Option String
  address : Option String
  quiet : Bool
  outfile : Option String
  help : Bool
  deriving Repr, DecidableEq

def initialArgs : ParsedArgs :=
  { command := none, cluster := some "mainnet-beta", key := none,
    toFlag := none,
    amount := none, address := none, quiet := false, outfile := none,
    help := false }

/-- The option-scanning loop of parseArgs: each value-taking flag shifts
the next token (undefined when exhausted, which also empties the loop),
and an unrecognized token becomes the command when none is set yet. -/
def parseLoop : List String → ParsedArgs → ParsedArgs
  | [], st => st
  | a :: rest, st =>
      if a = "--cluster" then
        match rest with
        | v :: rs => parseLoop rs { st with cluster := some v }
        | [] => { st with cluster := none }
      else if a = "--key" then
        match rest with
        | v :: rs => parseLoop rs { st with key := some v }
        | [] => { st with key := none }
      else if a = "--to" then
        match rest with
        | v :: rs => parseLoop rs { st with toFlag := some v }
        | [] => { st with toFlag := none }
      else if a = "--amount" then
        match rest with
        | v :: rs => parseLoop rs { st with amount := some v }
        | [] => { st with amount := none }
      else if a = "--address" then
        match rest with
        | v :: rs => parseLoop rs { st with address := some v }
        | [] => { st with address := none }
      else if a = "--quiet" then parseLoop rest { st with quiet := true }
      else if a = "-o" || a = "--outfile" then
        match rest with
        | v :: rs => parseLoop rs { st with outfile := some v }
        | [] => { st with outfile := none }
      else if a = "--help" || a = "-h" then
        parseLoop rest { st with help := true }
      else
        parseLoop rest
          (if st.command.isNone then { st with command := some a } else st)

/-- The source's parseArgs: a leading non-dash token is the command, then
the flag loop runs over the remaining tokens. -/
def parseArgs (argv : List String) : ParsedArgs :=
  match argv with
  | a :: rest =>
      if !a.startsWith "-" then
        parseLoop rest { initialArgs with command := some a }
      else parseLoop argv initialArgs
  | [] => initialArgs

/-- The help text, line for line as the source joins it. -/
def helpText : String :=
  String.intercalate "\n"
    ["Usage: lea <command> [options]",
     "",
     "Global options:",
     "  --cluster <name|URL>   devnet|testnet|mainnet-beta|local|URL (default mainnet-beta)",
     "  -o, --outfile <path>   Write JSON result to a file (also printed to stdout)",
     "  --quiet                 Suppress stderr status line",
     "",
     "Output:",
     "  - stdout: decoded response as JSON only",
     "  - stderr: status line (ok, HTTP status, txId, exec, abort)",
     "",
     "Commands:",
     "  keygen                 Run the @getlea/keygen CLI (proxy)",
     "  publish-keyset         --key keyfile.json",
     "  mint                   --key minter.json --to <address|keyfile.json> --amount <uLEA>",
     "  transfer               --key sender.json --to <address|keyfile.json> --amount <uLEA>",
     "  burn                   --key account.json --amount <uLEA>",
     "  get-balance            --address <address|keyfile.json>",
     "  get-last-tx-hash       --address <address|keyfile.json>",
     "  get-allowed-mint       --address <address|keyfile.json>",
     "  get-current-supply",
     "  mint-whitelist         --key authority.json --to <address|keyfile.json> --amount <uLEA>"]

/-- One subprocess invocation: command, arguments, shell flag. -/
structure SpawnCall where
  cmd : String
  args : List String
  shell : Bool
  deriving Repr, DecidableEq

/-- Outcome of one spawned child: an error event (rejecting the promise),
or a close event with an exit code, null when the child was killed by a
signal. -/
inductive SpawnOutcome : Type where
  | errorEvt : String → SpawnOutcome
  | closed : Option Int → Option String → SpawnOutcome

/-- The source's spawnAndWait: an error event rejects; a numeric close
code resolves after setting the process exit code to the code when it is
nonzero; a null code means signal termination and rejects with the signal
error message. -/
def spawnAndWait : SpawnOutcome → Except String (Option Int)
  | .errorEvt m => .error m
  | .closed (some code) _ => .ok (if code != 0 then some code else none)
  | .closed none sig =>
      .error ("Process terminated with signal "
        ++ (match sig with
            | some s => if s != "" then s else "UNKNOWN"
            | none => "UNKNOWN"))

/-- The bin field of the keygen package manifest. -/
inductive BinField : Type where
  | missing : BinField
  | str : String → BinField
  | obj : List (String × String) → BinField

/-- relBin selection from the bin field: a string bin is taken directly;
for an object, the lea-keygen entry when truthy, else the first value. -/
def relBinOf : BinField → Option String
  | .missing => none
  | .str s => some s
  | .obj entries =>
      match List.lookup "lea-keygen" entries with
      | some s => if s != "" then some s else entries.head?.map Prod.snd
      | none => entries.head?.map Prod.snd

/-- Model of node path.dirname on plain slash-separated paths. -/
def jsDirname (p : String) : String :=
  String.intercalate "/" (p.splitOn "/").dropLast

/-- Model of node path.resolve of a relative segment against a directory. -/
def jsPathResolve (dir rel : String) : String := dir ++ "/" ++ rel

/-- Everything one CLI run observes from outside: platform facts, module
resolution, file reads, spawn outcomes, the two network outcomes, the
JSON.stringify builtin and the ambient heap of decoded values. -/
structure Env where
  execPath : String
  win32 : Bool
  resolveKeygenPkg : Except String (String × BinField)
  spawnOutcome : SpawnCall → SpawnOutcome
  readJson : String → Except String JFile
  prefetch : NetOutcome
  send : SendOutcome
  stringify : SVal → String
  heap : Heap

/-- The spawn of tier 1 of the keygen proxy, when package resolution
succeeds and yields a truthy bin entry: run the resolved bin path under
the current node executable. -/
def tier1Call (env : Env) (args : List String) : Option SpawnCall :=
  match env.resolveKeygenPkg with
  | .error _ => none
  | .ok (pkgPath, bf) =>
      match relBinOf bf with
      | some relBin =>
          if relBin = "" then none
          else some
            { cmd := env.execPath,
              args := jsPathResolve (jsDirname pkgPath) relBin :: args,
              shell := false }
      | none => none

/-- The spawn of tier 2: the PATH-resolved lea-keygen binary. -/
def tier2Call (env : Env) (args : List String) : SpawnCall :=
  { cmd := if env.win32 then "lea-keygen.cmd" else "lea-keygen",
    args := args, shell := env.win32 }

/-- The spawn of tier 3: npx -y @getlea/keygen. -/
def tier3Call (env : Env) (args : List String) : SpawnCall :=
  { cmd := if env.win32 then "npx.cmd" else "npx",
    args := "-y" :: "@getlea/keygen" :: args, shell := env.win32 }

/-- Tiers 2 and 3 of runKeygen: try the PATH binary; on a caught rejection
fall back to npx, whose own rejection propagates. -/
def runKeygenTail (env : Env) (args : List String) (acc : List SpawnCall) :
    List SpawnCall × Except String (Option Int) :=
  let c2 := tier2Call env args
  match spawnAndWait (env.spawnOutcome c2) with
  | .ok ec => (acc ++ [c2], .ok ec)
  | .error _ =>
      let c3 := tier3Call env args
      (acc ++ [c2, c3], spawnAndWait (env.spawnOutcome c3))

/-- The source's runKeygen: resolve and run the package bin (tier 1); on a
caught failure, or when no usable bin path was found, fall through to the
PATH binary (tier 2), then to npx (tier 3).  Returns the spawns performed
in order, and the final promise outcome carrying the exit-code state. -/
def runKeygen (env : Env) (args : List String) :
    List SpawnCall × Except String (Option Int) :=
  match tier1Call env args with
  | some c1 =>
      match spawnAndWait (env.spawnOutcome c1) with
      | .ok ec => ([c1], .ok ec)
      | .error _ => runKeygenTail env args [c1]
  | none => runKeygenTail env args []

/-- The source's resolveAddress, with file reads supplied by the
environment (path.resolve is modelled as reading by the given path). -/
def resolveAddress (env : Env) (input : Option String) : Except String String :=
  match input with
  | none => .error "Address is required"
  | some p =>
      if p = "" then .error "Address is required"
      else if isJsonPath p then
        (env.readJson p).bind fun j =>
          match j.address with
          | some a =>
              if a != "" then .ok a
              else .error ("Keyfile " ++ p ++ " missing address")
          | none => .error ("Keyfile " ++ p ++ " missing address")
      else .ok p

/-- The source's readSigner: requires a .json key path (an absent or empty
path fails the same check with the same error), then a keyfile with truthy
keyset and address fields. -/
def readSigner (env : Env) (keyfile : Option String) : Except String Signer :=
  match keyfile with
  | none => .error "A --key path.json is required"
  | some kf =>
      if !isJsonPath kf then .error "A --key path.json is required"
      else
        (env.readJson kf).bind fun j =>
          match j.address with
          | some a =>
              if j.keysetTruthy && (a != "") then
                .ok { keyset := j.keysetTruthy, address := a }
              else .error "Keyfile must include keyset and address"
          | none => .error "Keyfile must include keyset and address"

/-- The amount option as a toBigInt argument: a present flag is a string,
an absent one is the undefined value, which toBigInt rejects. -/
def amountArg : Option String → Amount
  | some s => .astr s
  | none => .aother

/-- One recognized-command handler of the dispatcher switch.  The external
SDK builders are opaque; what the model keeps of the built transaction is
the options object they received, and the send outcome is supplied by the
environment.  The default arm is the unknown-command branch: help to
stdout, a note to stderr, exit code 1. -/
def dispatch (env : Env) (cmd : String) (p : ParsedArgs) :
    Except String Report :=
  if cmd = "publish-keyset" then
    (readSigner env p.key).bind fun signer =>
      (buildWithPrevHash env.prefetch (fun (_ : Signer) o => o) signer).bind
        fun _ => sendAndReport env.stringify env.heap env.send p.outfile p.quiet
  else if cmd = "mint" then
    (readSigner env p.key).bind fun signer =>
      (resolveAddress env p.toFlag).bind fun toAddr =>
        (toBigInt (amountArg p.amount)).bind fun amount =>
          (buildWithPrevHash env.prefetch
              (fun (_ : Signer × String × Int) o => o)
              (signer, toAddr, amount)).bind
            fun _ =>
              sendAndReport env.stringify env.heap env.send p.outfile p.quiet
  else if cmd = "transfer" then
    (readSigner env p.key).bind fun signer =>
      (resolveAddress env p.toFlag).bind fun toAddr =>
        (toBigInt (amountArg p.amount)).bind fun amount =>
          (buildWithPrevHash env.prefetch
              (fun (_ : Signer × String × Int) o => o)
              (signer, toAddr, amount)).bind
            fun _ =>
              sendAndReport env.stringify env.heap env.send p.outfile p.quiet
  else if cmd = "burn" then
    (readSigner env p.key).bind fun signer =>
      (toBigInt (amountArg p.amount)).bind fun amount =>
        (buildWithPrevHash env.prefetch (fun (_ : Signer × Int) o => o)
            (signer, amount)).bind
          fun _ =>
            sendAndReport env.stringify env.heap env.send p.outfile p.quiet
  else if cmd = "get-balance" then
    (resolveAddress env p.address).bind fun _ =>
      sendAndReport env.stringify env.heap env.send p.outfile p.quiet
  else if cmd = "get-last-tx-hash" then
    (resolveAddress env p.address).bind fun _ =>
      sendAndReport env.stringify env.heap env.send p.outfile p.quiet
  else if cmd = "get-allowed-mint" then
    (resolveAddress env p.address).bind fun _ =>
      sendAndReport env.stringify env.heap env.send p.outfile p.quiet
  else if cmd = "get-current-supply" then
    sendAndReport env.stringify env.heap env.send p.outfile p.quiet
  else if cmd = "mint-whitelist" then
    (readSigner env p.key).bind fun signer =>
      (resolveAddress env p.toFlag).bind fun toAddr =>
        (toBigInt (amountArg p.amount)).bind fun amount =>
          (buildWithPrevHash env.prefetch
              (fun (_ : Signer × String × Int) o => o)
              (signer, toAddr, amount)).bind
            fun _ =>
              sendAndReport env.stringify env.heap env.send p.outfile p.quiet
  else
    .ok { stderrLines := ["Unknown command: " ++ cmd ++ "\n\n"],
          stdoutLines := [helpText ++ "\n"],
          fileWrites := [], exit1 := true }

/-- Observable result of one whole CLI invocation.  exitCode is the final
process exit code; an Except.error result models a rejected main promise
(an unhandled rejection crashing the process). -/
structure MainOut where
  stdoutLines : List String
  stderrLines : List String
  fileWrites : List (String × String)
  exitCode : Int
  spawnCalls : List SpawnCall
  deriving Repr

/-- The source's main: the keygen fast path proxies and keeps the child
exit-code state (default 0) with no try around it; no command or the help
flag prints the help text and exits 0; otherwise the command dispatches,
and the surrounding catch reports any handler error as an error JSON
object with exit code 1. -/
def main (env : Env) (argv : List String) : Except String MainOut :=
  if argv.head? = some "keygen" then
    match runKeygen env argv.tail with
    | (calls, .ok ec) =>
        .ok { stdoutLines := [], stderrLines := [], fileWrites := [],
              exitCode := ec.getD 0, spawnCalls := calls }
    | (_, .error e) => .error e
  else
    let p := parseArgs argv
    match p.command with
    | none =>
        .ok { stdoutLines := [helpText ++ "\n"], stderrLines := [],
              fileWrites := [], exitCode := 0, spawnCalls := [] }
    | some cmd =>
        if p.help then
          .ok { stdoutLines := [helpText ++ "\n"], stderrLines := [],
                fileWrites := [], exitCode := 0, spawnCalls := [] }
        else
          match dispatch env cmd p with
          | .ok rep =>
              .ok { stdoutLines := rep.stdoutLines,
                    stderrLines := rep.stderrLines,
                    fileWrites := rep.fileWrites,
                    exitCode := if rep.exit1 then 1 else 0,
                    spawnCalls := [] }
          | .error e =>
              let jsonStr := env.stringify (.sobj [("error", .sstr e)])
              .ok { stdoutLines := [jsonStr ++ "\n"], stderrLines := [],
                    fileWrites :=
                      match p.outfile with
                      | some f => [(f, jsonStr ++ "\n")]
                      | none => [],
                    exitCode := 1, spawnCalls := [] }

def resp32 : NetOutcome :=
  .ret (some
    { ok := true, executionStatus := some 0, abortCode := some 0,
      decoded := .mapLike [(BASE_POD_HEX,
        { lastTxHash := some (.u8 (List.replicate 32 (0 : Fin 256))) })] })

def res400 : SendResult :=
  { ok := false, status := 400, txId := none, executionStatus := none,
    abortCode := none, decoded := .vnull }

/-- The shared-reference example heap: object 1 holds the same object 0
under two different keys, with no cycle. -/
def heapShared : Heap :=
  [(0, HObj.arr [.vnum 1]), (1, HObj.obj [("a", .vref 0), ("b", .vref 0)])]

/-- Concrete environment for the tier-order witness: the package is not
installed (tier 1 resolution throws), the PATH binary is missing (tier 2
spawn rejects), npx runs and exits 0. -/
def envK : Env :=
  { execPath := "node", win32 := false,
    resolveKeygenPkg := .error "Cannot find module",
    spawnOutcome := fun c =>
      if c.cmd = "lea-keygen" then .errorEvt "spawn ENOENT"
      else .closed (some 0) none,
    readJson := fun _ => .error "unused",
    prefetch := .ret none,
    send := .threw "unused",
    stringify := fun _ => "null",
    heap := [] }

/-- Known command-name reference list used by the unknown-command clause. -/
def knownCommands : List String :=
  ["publish-keyset", "mint", "transfer", "burn", "get-balance",
   "get-last-tx-hash", "get-allowed-mint", "get-current-supply",
   "mint-whitelist"]

/-- Concrete environment for the mirrored-exit-code counterexample: the
keygen package is not resolvable, and every spawned child exits with code
7. -/
def env7 : Env :=
  { execPath := "node", win32 := false,
    resolveKeygenPkg := .error "Cannot find module",
    spawnOutcome := fun _ => .closed (some 7) none,
    readJson := fun _ => .error "unused",
    prefetch := .ret none,
    send := .threw "unused",
    stringify := fun _ => "null",
    heap := [] }

theorem lookup_mem {heap : Heap} {id : Nat} {o : HObj}
    (h : List.lookup id heap = some o) : (id, o) ∈ heap := by
  induction heap with
  | nil => simp [List.lookup] at h
  | cons p rest ih =>
    obtain ⟨k, b⟩ := p
    cases hik : (id == k) with
    | true =>
      simp [List.lookup_cons, hik] at h
      have hk : id = k := eq_of_beq hik
      subst hk; subst h
      exact List.mem_cons_self _ _
    | false =>
      simp [List.lookup_cons, hik] at h
      exact List.mem_cons_of_mem _ (ih h)

theorem lookup_isSome_mem_keys {heap : Heap} {id : Nat}
    (h : (List.lookup id heap).isSome) : id ∈ heap.map Prod.fst := by
  obtain ⟨o, ho⟩ := Option.isSome_iff_exists.mp h
  exact List.mem_map.mpr ⟨(id, o), lookup_mem ho, rfl⟩

theorem freshCount_le_of_subset {heap : Heap} {s t : List Nat} (h : s ⊆ t) :
    freshCount heap t ≤ freshCount heap s := by
  apply Finset.card_le_card
  intro x hx
  simp only [Finset.mem_sdiff, List.mem_toFinset] at hx ⊢
  exact ⟨hx.1, fun hc => hx.2 (h hc)⟩

theorem freshCount_pos {heap : Heap} {seen : List Nat} {id : Nat}
    (hmem : id ∈ heap.map Prod.fst) (hns : id ∉ seen) :
    0 < freshCount heap seen := by
  apply Finset.card_pos.mpr
  exact ⟨id, by simp [Finset.mem_sdiff, List.mem_toFinset, hmem, hns]⟩

theorem freshCount_cons {heap : Heap} {seen : List Nat} {id : Nat}
    (hmem : id ∈ heap.map Prod.fst) (hns : id ∉ seen) :
    freshCount heap (id :: seen) + 1 = freshCount heap seen := by
  unfold freshCount
  have h1 : (id :: seen).toFinset = insert id seen.toFinset := by simp
  rw [h1]
  have h2 : (heap.map Prod.fst).toFinset \ insert id seen.toFinset
      = ((heap.map Prod.fst).toFinset \ seen.toFinset).erase id := by
    ext x
    simp only [Finset.mem_sdiff, Finset.mem_insert, Finset.mem_erase,
      List.mem_toFinset]
    tauto
  have hid : id ∈ (heap.map Prod.fst).toFinset \ seen.toFinset := by
    simp [Finset.mem_sdiff, List.mem_toFinset, hmem, hns]
  rw [h2, Finset.card_erase_of_mem hid]
  have hpos : 0 < ((heap.map Prod.fst).toFinset \ seen.toFinset).card :=
    Finset.card_pos.mpr ⟨id, hid⟩
  omega

theorem conv_revisit (heap : Heap) (fuel : Nat) (seen : List Nat) (id : Nat)
    (h : id ∈ seen) :
    conv heap fuel seen (.vref id) = some (.sstr "[Circular]", seen) := by
  cases fuel <;> simp [conv, convBase, convStep, h]

theorem convSeq_subset {rec : List Nat → HVal → Option (SVal × List Nat)}
    (hrec : ∀ seen v p, rec seen v = some p → seen ⊆ p.2) :
    ∀ vs seen q, convSeq rec seen vs = some q → seen ⊆ q.2 := by
  intro vs
  induction vs with
  | nil =>
    intro seen q h
    simp only [convSeq, Option.some.injEq] at h
    rw [← h]
    exact fun _ hx => hx
  | cons v vs ih =>
    intro seen q h
    simp only [convSeq, Option.bind_eq_some, Option.map_eq_some'] at h
    obtain ⟨p, hp, q', hq', heq⟩ := h
    have h1 := hrec seen v p hp
    have h2 := ih p.2 q' hq'
    rw [← heq]
    exact h1.trans h2

theorem convEntries_subset {rec : List Nat → HVal → Option (SVal × List Nat)}
    (hrec : ∀ seen v p, rec seen v = some p → seen ⊆ p.2) :
    ∀ es seen q, convEntries rec seen es = some q → seen ⊆ q.2 := by
  intro es
  induction es with
  | nil =>
    intro seen q h
    simp only [convEntries, Option.some.injEq] at h
    rw [← h]
    exact fun _ hx => hx
  | cons e es ih =>
    intro seen q h
    obtain ⟨k, v⟩ := e
    simp only [convEntries, Option.bind_eq_some, Option.map_eq_some'] at h
    obtain ⟨p, hp, q', hq', heq⟩ := h
    have h1 := hrec seen v p hp
    have h2 := ih p.2 q' hq'
    rw [← heq]
    exact h1.trans h2

theorem conv_subset (heap : Heap) :
    ∀ fuel seen v p, conv heap fuel seen v = some p → seen ⊆ p.2 := by
  intro fuel
  induction fuel with
  | zero =>
    intro seen v p h
    cases v <;> simp only [conv, convBase, Option.some.injEq] at h <;>
      first
        | (rw [← h]; exact fun _ hx => hx)
        | (split at h
           · rw [← Option.some.injEq] at h
             simp only [Option.some.injEq] at h
             rw [← h]
             exact fun _ hx => hx
           · exact absurd h (by simp))
  | succ f ih =>
    intro seen v p h
    cases v with
    | vref id =>
      simp only [conv, convStep] at h
      split at h
      · simp only [Option.some.injEq] at h
        rw [← h]
        exact fun _ hx => hx
      · cases hl : List.lookup id heap with
        | none => rw [hl] at h; exact absurd h (by simp)
        | some o =>
          rw [hl] at h
          have hsub1 : seen ⊆ id :: seen := List.subset_cons_self _ _
          cases o with
          | view k buf =>
            simp only [Option.some.injEq] at h
            rw [← h]
            exact hsub1
          | map es =>
            simp only [Option.map_eq_some'] at h
            obtain ⟨q, hq, heq⟩ := h
            rw [← heq]
            exact hsub1.trans (convEntries_subset (fun s v p hp => ih s v p hp) es _ q hq)
          | arr vs =>
            simp only [Option.map_eq_some'] at h
            obtain ⟨q, hq, heq⟩ := h
            rw [← heq]
            exact hsub1.trans (convSeq_subset (fun s v p hp => ih s v p hp) vs _ q hq)
          | obj es =>
            simp only [Option.map_eq_some'] at h
            obtain ⟨q, hq, heq⟩ := h
            rw [← heq]
            exact hsub1.trans (convEntries_subset (fun s v p hp => ih s v p hp) es _ q hq)
    | vnull => simp only [conv, convStep, Option.some.injEq] at h; rw [← h]; exact fun _ hx => hx
    | vundef => simp only [conv, convStep, Option.some.injEq] at h; rw [← h]; exact fun _ hx => hx
    | vbool b => simp only [conv, convStep, Option.some.injEq] at h; rw [← h]; exact fun _ hx => hx
    | vnum n => simp only [conv, convStep, Option.some.injEq] at h; rw [← h]; exact fun _ hx => hx
    | vbig n => simp only [conv, convStep, Option.some.injEq] at h; rw [← h]; exact fun _ hx => hx
    | vstr s => simp only [conv, convStep, Option.some.injEq] at h; rw [← h]; exact fun _ hx => hx

theorem convSeq_total {heap : Heap} {fuel : Nat}
    (hrec : ∀ seen v, valClosed heap v = true → freshCount heap seen ≤ fuel →
      ∃ p, conv heap fuel seen v = some p ∧ seen ⊆ p.2) :
    ∀ vs seen, (∀ v ∈ vs, valClosed heap v = true) →
      freshCount heap seen ≤ fuel →
      ∃ q, convSeq (conv heap fuel) seen vs = some q ∧ seen ⊆ q.2 := by
  intro vs
  induction vs with
  | nil => exact fun seen _ _ => ⟨([], seen), rfl, fun _ hx => hx⟩
  | cons v vs ih =>
    intro seen hall hf
    obtain ⟨p, hp, hs1⟩ := hrec seen v (hall v (List.mem_cons_self _ _)) hf
    obtain ⟨q, hq, hs2⟩ := ih p.2
      (fun x hx => hall x (List.mem_cons_of_mem _ hx))
      (le_trans (freshCount_le_of_subset hs1) hf)
    exact ⟨(p.1 :: q.1, q.2), by simp [convSeq, hp, hq], hs1.trans hs2⟩

theorem convEntries_total {heap : Heap} {fuel : Nat}
    (hrec : ∀ seen v, valClosed heap v = true → freshCount heap seen ≤ fuel →
      ∃ p, conv heap fuel seen v = some p ∧ seen ⊆ p.2) :
    ∀ es seen, (∀ e ∈ es, valClosed heap (Prod.snd e) = true) →
      freshCount heap seen ≤ fuel →
      ∃ q, convEntries (conv heap fuel) seen es = some q ∧ seen ⊆ q.2 := by
  intro es
  induction es with
  | nil => exact fun seen _ _ => ⟨([], seen), rfl, fun _ hx => hx⟩
  | cons e es ih =>
    obtain ⟨k, v⟩ := e
    intro seen hall hf
    obtain ⟨p, hp, hs1⟩ := hrec seen v (hall (k, v) (List.mem_cons_self _ _)) hf
    obtain ⟨q, hq, hs2⟩ := ih p.2
      (fun x hx => hall x (List.mem_cons_of_mem _ hx))
      (le_trans (freshCount_le_of_subset hs1) hf)
    exact ⟨((k, p.1) :: q.1, q.2), by simp [convEntries, hp, hq], hs1.trans hs2⟩

theorem conv_total (heap : Heap) (hheap : heapClosed heap = true) :
    ∀ fuel seen v, valClosed heap v = true → freshCount heap seen ≤ fuel →
      ∃ p, conv heap fuel seen v = some p ∧ seen ⊆ p.2 := by
  have hchildren : ∀ {id o}, List.lookup id heap = some o →
      ∀ x ∈ objChildren o, valClosed heap x = true := by
    intro id o hl x hx
    have hmem : (id, o) ∈ heap := lookup_mem hl
    have h1 := (List.all_eq_true.mp hheap) (id, o) hmem
    exact (List.all_eq_true.mp h1) x hx
  intro fuel
  induction fuel with
  | zero =>
    intro seen v hv hf
    cases v with
    | vref id =>
      by_cases hmem : id ∈ seen
      · exact ⟨(.sstr "[Circular]", seen), by simp [conv, convBase, hmem],
          fun _ hx => hx⟩
      · exfalso
        have hkey : id ∈ heap.map Prod.fst := lookup_isSome_mem_keys hv
        have := freshCount_pos hkey hmem
        omega
    | vnull => exact ⟨(primConv .vnull, seen), rfl, fun _ hx => hx⟩
    | vundef => exact ⟨(primConv .vundef, seen), rfl, fun _ hx => hx⟩
    | vbool b => exact ⟨(primConv (.vbool b), seen), rfl, fun _ hx => hx⟩
    | vnum n => exact ⟨(primConv (.vnum n), seen), rfl, fun _ hx => hx⟩
    | vbig n => exact ⟨(primConv (.vbig n), seen), rfl, fun _ hx => hx⟩
    | vstr s => exact ⟨(primConv (.vstr s), seen), rfl, fun _ hx => hx⟩
  | succ f ih =>
    intro seen v hv hf
    cases v with
    | vref id =>
      by_cases hmem : id ∈ seen
      · exact ⟨(.sstr "[Circular]", seen), by simp [conv, convStep, hmem],
          fun _ hx => hx⟩
      · obtain ⟨o, hl⟩ := Option.isSome_iff_exists.mp hv
        have hkey : id ∈ heap.map Prod.fst :=
          lookup_isSome_mem_keys (by simp [hl])
        have hsub1 : seen ⊆ id :: seen := List.subset_cons_self _ _
        have hf1 : freshCount heap (id :: seen) ≤ f := by
          have := freshCount_cons hkey hmem
          omega
        cases o with
        | view k buf =>
          exact ⟨(viewConv k buf, id :: seen),
            by simp [conv, convStep, hmem, hl], hsub1⟩
        | map es =>
          obtain ⟨q, hq, hs⟩ := convEntries_total ih es (id :: seen)
            (by
              intro e he
              exact hchildren hl e.2 (by
                simp only [objChildren]
                exact List.mem_map.mpr ⟨e, he, rfl⟩))
            hf1
          exact ⟨(.sobj q.1, q.2), by simp [conv, convStep, hmem, hl, hq],
            hsub1.trans hs⟩
        | arr vs =>
          obtain ⟨q, hq, hs⟩ := convSeq_total ih vs (id :: seen)
            (fun x hx => hchildren hl x (by simpa [objChildren] using hx))
            hf1
          exact ⟨(.sarr q.1, q.2), by simp [conv, convStep, hmem, hl, hq],
            hsub1.trans hs⟩
        | obj es =>
          obtain ⟨q, hq, hs⟩ := convEntries_total ih es (id :: seen)
            (by
              intro e he
              exact hchildren hl e.2 (by
                simp only [objChildren]
                exact List.mem_map.mpr ⟨e, he, rfl⟩))
            hf1
          exact ⟨(.sobj q.1, q.2), by simp [conv, convStep, hmem, hl, hq],
            hsub1.trans hs⟩
    | vnull => exact ⟨(primConv .vnull, seen), rfl, fun _ hx => hx⟩
    | vundef => exact ⟨(primConv .vundef, seen), rfl, fun _ hx => hx⟩
    | vbool b => exact ⟨(primConv (.vbool b), seen), rfl, fun _ hx => hx⟩
    | vnum n => exact ⟨(primConv (.vnum n), seen), rfl, fun _ hx => hx⟩
    | vbig n => exact ⟨(primConv (.vbig n), seen), rfl, fun _ hx => hx⟩
    | vstr s => exact ⟨(primConv (.vstr s), seen), rfl, fun _ hx => hx⟩

theorem serialize_isSome {heap : Heap} {v : HVal}
    (hheap : heapClosed heap = true) (hv : valClosed heap v = true) :
    ∃ s, serialize heap v = some s := by
  have hf : freshCount heap [] ≤ heap.length + 1 := by
    unfold freshCount
    calc ((heap.map Prod.fst).toFinset \ ([] : List Nat).toFinset).card
        ≤ (heap.map Prod.fst).toFinset.card :=
          Finset.card_le_card (Finset.sdiff_subset)
      _ ≤ (heap.map Prod.fst).length := List.toFinset_card_le _
      _ = heap.length := List.length_map _ _
      _ ≤ heap.length + 1 := Nat.le_succ _
  obtain ⟨p, hp, _⟩ := conv_total heap hheap (heap.length + 1) [] v hv hf
  exact ⟨p.1, by simp [serialize, hp]⟩

theorem digitsLE_all_lt (n : Nat) : ∀ d ∈ digitsLE n, d < 10 := by
  induction n using Nat.strong_induction_on with
  | _ n ih =>
    by_cases h0 : n = 0
    · rw [digitsLE, dif_pos h0]; intro d hd; cases hd
    · rw [digitsLE, dif_neg h0]
      intro d hd
      rcases List.mem_cons.mp hd with h | h
      · subst h; exact Nat.mod_lt _ (by omega)
      · exact ih (n / 10)
          (Nat.div_lt_self (Nat.pos_of_ne_zero h0) (by omega)) d h

theorem digitsLE_ne_nil {n : Nat} (h : n ≠ 0) : digitsLE n ≠ [] := by
  rw [digitsLE, dif_neg h]; simp

theorem digitsLE_foldr (n : Nat) :
    (digitsLE n).foldr (fun d acc => acc * 10 + d) 0 = n := by
  induction n using Nat.strong_induction_on with
  | _ n ih =>
    by_cases h0 : n = 0
    · rw [digitsLE, dif_pos h0]; simp [h0]
    · rw [digitsLE, dif_neg h0]
      simp only [List.foldr_cons]
      rw [ih (n / 10) (Nat.div_lt_self (Nat.pos_of_ne_zero h0) (by omega))]
      omega

theorem digitChar_isDigit {d : Nat} (h : d < 10) :
    (digitChar d).isDigit = true := by
  interval_cases d <;> decide

theorem digitChar_toNat {d : Nat} (h : d < 10) :
    (digitChar d).toNat = 48 + d := by
  interval_cases d <;> decide

theorem digitChar_ne_n {d : Nat} (h : d < 10) : digitChar d ≠ 'n' := by
  interval_cases d <;> decide

theorem digitChar_ne_minus {d : Nat} (h : d < 10) : digitChar d ≠ '-' := by
  interval_cases d <;> decide

theorem digitChar_ne_plus {d : Nat} (h : d < 10) : digitChar d ≠ '+' := by
  interval_cases d <;> decide

theorem parseDigitsAcc_map (ds : List Nat) (h : ∀ d ∈ ds, d < 10) :
    ∀ acc, parseDigitsAcc acc (ds.map digitChar) =
      some (ds.foldl (fun a d => a * 10 + d) acc) := by
  induction ds with
  | nil => intro acc; rfl
  | cons d ds ih =>
    intro acc
    have hd : d < 10 := h d (List.mem_cons_self _ _)
    simp only [List.map_cons, parseDigitsAcc, digitChar_isDigit hd, if_true,
      digitChar_toNat hd, List.foldl_cons]
    have : 48 + d - 48 = d := by omega
    rw [this]
    exact ih (fun x hx => h x (List.mem_cons_of_mem _ hx)) _

theorem parse_natChars (n : Nat) : parseDigitsAcc 0 (natChars n) = some n := by
  by_cases h0 : n = 0
  · subst h0; rfl
  · rw [natChars, if_neg h0]
    rw [parseDigitsAcc_map _
      (fun d hd => digitsLE_all_lt n d (List.mem_reverse.mp hd))]
    rw [List.foldl_reverse]
    rw [digitsLE_foldr]

theorem natChars_all_digit (n : Nat) :
    ∀ c ∈ natChars n, c.isDigit = true := by
  by_cases h0 : n = 0
  · subst h0; intro c hc; rw [natChars] at hc; simp at hc; subst hc; decide
  · rw [natChars, if_neg h0]
    intro c hc
    obtain ⟨d, hd, rfl⟩ := List.mem_map.mp hc
    exact digitChar_isDigit (digitsLE_all_lt n d (List.mem_reverse.mp hd))

theorem natChars_ne_nil (n : Nat) : natChars n ≠ [] := by
  by_cases h0 : n = 0
  · subst h0; rw [natChars]; simp
  · rw [natChars, if_neg h0]
    simp only [ne_eq, List.map_eq_nil_iff, List.reverse_eq_nil_iff]
    exact digitsLE_ne_nil h0

theorem endsWithN_eq_false {l : List Char} (h : ∀ c ∈ l, ¬(c = 'n')) :
    endsWithN l = false := by
  unfold endsWithN
  cases hl : l.getLast? with
  | none => rfl
  | some c =>
    have hc : c ∈ l := List.mem_of_getLast?_eq_some hl
    simp [h c hc]

theorem isDigit_ne_n {c : Char} (h : c.isDigit = true) : ¬(c = 'n') := by
  intro he; subst he; simp [Char.isDigit] at h

theorem isDigit_ne_minus {c : Char} (h : c.isDigit = true) : ¬(c = '-') := by
  intro he; subst he; simp [Char.isDigit] at h

theorem isDigit_ne_plus {c : Char} (h : c.isDigit = true) : ¬(c = '+') := by
  intro he; subst he; simp [Char.isDigit] at h

theorem jsStringToBigInt_cons (c : Char) (rest : List Char) :
    jsStringToBigInt (c :: rest) =
      if c = '-' then
        if rest.isEmpty then none
        else (parseDigitsAcc 0 rest).map fun m => -(m : Int)
      else if c = '+' then
        if rest.isEmpty then none
        else (parseDigitsAcc 0 rest).map fun m => (m : Int)
      else (parseDigitsAcc 0 (c :: rest)).map fun m => (m : Int) := rfl

/-- Round trip at the character-list level, nonnegative case. -/
theorem jsStringToBigInt_natChars (m : Nat) :
    jsStringToBigInt (natChars m) = some (m : Int) := by
  obtain ⟨c, rest, hcr⟩ := List.exists_cons_of_ne_nil (natChars_ne_nil m)
  have hdig : c.isDigit = true :=
    natChars_all_digit m c (by rw [hcr]; exact List.mem_cons_self _ _)
  rw [hcr, jsStringToBigInt_cons]
  rw [if_neg (isDigit_ne_minus hdig), if_neg (isDigit_ne_plus hdig)]
  rw [← hcr, parse_natChars]
  rfl

theorem toBigInt_roundtrip (n : Int) :
    toBigInt (.astr (jsBigIntToString n)) = .ok n := by
  have hdata : (jsBigIntToString n).data = intChars n := rfl
  rw [toBigInt]
  simp only [hdata]
  by_cases hneg : n < 0
  · have hic : intChars n = '-' :: natChars n.natAbs := by
      rw [intChars, if_pos hneg]
    have hend : endsWithN (intChars n) = false := by
      apply endsWithN_eq_false
      intro c hc
      rw [hic] at hc
      rcases List.mem_cons.mp hc with h | h
      · subst h; decide
      · exact isDigit_ne_n (natChars_all_digit _ c h)
    rw [hend]
    simp only [if_false, Bool.false_eq_true]
    rw [hic, jsStringToBigInt_cons, if_pos rfl,
      if_neg (by simp [natChars_ne_nil n.natAbs]), parse_natChars]
    simp [abs_of_neg hneg]
  · have hic : intChars n = natChars n.toNat := by
      rw [intChars, if_neg hneg]
    have hend : endsWithN (intChars n) = false := by
      apply endsWithN_eq_false
      intro c hc
      rw [hic] at hc
      exact isDigit_ne_n (natChars_all_digit _ c hc)
    rw [hend]
    simp only [if_false, Bool.false_eq_true]
    rw [hic, jsStringToBigInt_natChars]
    simp [Int.toNat_of_nonneg (le_of_not_lt hneg)]

/-- Every byte list extractLast accepts has length exactly 32. -/
theorem extractLast_length {d : Decoded} {bs : Bytes}
    (h : extractLast d = some bs) : bs.length = 32 := by
  cases d with
  | notMap => simp [extractLast] at h
  | mapLike entries =>
    simp only [extractLast] at h
    cases hb : (List.lookup BASE_POD_HEX entries).bind BaseEntry.lastTxHash with
    | none => rw [hb] at h; simp [lastValTo32] at h
    | some lv =>
      rw [hb] at h
      cases lv with
      | u8 l =>
        simp only [lastValTo32] at h
        by_cases hlen : l.length = 32
        · rw [if_pos hlen] at h
          simp only [Option.some.injEq] at h
          rw [← h]; exact hlen
        · rw [if_neg hlen] at h; simp at h
      | jarr xs =>
        simp only [lastValTo32] at h
        by_cases hall : xs.all elemOk
        · rw [if_pos hall] at h
          by_cases hlen : (xs.map elemToByte).length = 32
          · rw [if_pos hlen] at h
            simp only [Option.some.injEq] at h
            rw [← h]; exact hlen
          · rw [if_neg hlen] at h; simp at h
        · rw [if_neg hall] at h; simp at h
      | other => simp [lastValTo32] at h

/-- A fresh reference that conv successfully enters is in the output seen
set: objects are added on first visit and, by conv_subset, never removed. -/
theorem conv_enter {heap : Heap} {f : Nat} {seen : List Nat} {id : Nat}
    {p : SVal × List Nat} (hns : id ∉ seen)
    (h : conv heap (f + 1) seen (.vref id) = some p) : id ∈ p.2 := by
  simp only [conv, convStep] at h
  rw [if_neg hns] at h
  cases hl : List.lookup id heap with
  | none => rw [hl] at h; simp at h
  | some o =>
    rw [hl] at h
    cases o with
    | view k buf =>
      simp only [Option.some.injEq] at h
      rw [← h]; exact List.mem_cons_self _ _
    | map es =>
      simp only [Option.map_eq_some'] at h
      obtain ⟨q, hq, heq⟩ := h
      have := convEntries_subset (fun s v p hp => conv_subset heap f s v p hp)
        es _ q hq
      rw [← heq]
      exact this (List.mem_cons_self _ _)
    | arr vs =>
      simp only [Option.map_eq_some'] at h
      obtain ⟨q, hq, heq⟩ := h
      have := convSeq_subset (fun s v p hp => conv_subset heap f s v p hp)
        vs _ q hq
      rw [← heq]
      exact this (List.mem_cons_self _ _)
    | obj es =>
      simp only [Option.map_eq_some'] at h
      obtain ⟨q, hq, heq⟩ := h
      have := convEntries_subset (fun s v p hp => conv_subset heap f s v p hp)
        es _ q hq
      rw [← heq]
      exact this (List.mem_cons_self _ _)

/-- Claim C1: for every connection outcome, fetchPrevTxHashFromNetwork
never throws; a thrown network query, a not-ok response, a nonzero numeric
executionStatus or a nonzero numeric abortCode each yield the
no-previous-hash result (undefined), so the prefetch by itself never
aborts the overall command. -/
theorem claim1_fetch_never_throws (o : NetOutcome) :
    (∃ v, fetchPrevTxHashFromNetwork o = .ok v) ∧
    (∀ m, o = .threw m → fetchPrevTxHashFromNetwork o = .ok none) ∧
    (∀ res, o = .ret res → okOf res = false →
      fetchPrevTxHashFromNetwork o = .ok none) ∧
    (∀ res e, o = .ret res → execOf res = some e → e ≠ 0 →
      fetchPrevTxHashFromNetwork o = .ok none) ∧
    (∀ res a, o = .ret res → abortOf res = some a → a ≠ 0 →
      fetchPrevTxHashFromNetwork o = .ok none) := by
  refine ⟨?_, ?_, ?_, ?_, ?_⟩
  · cases o with
    | threw m => exact ⟨none, rfl⟩
    | ret res => exact ⟨fetchTry res, rfl⟩
  · intro m h; subst h; rfl
  · intro res h hok; subst h
    simp [fetchPrevTxHashFromNetwork, fetchBody, fetchTry, guardFails, hok]
  · intro res e h he hne; subst h
    simp [fetchPrevTxHashFromNetwork, fetchBody, fetchTry, guardFails, he, hne]
  · intro res a h ha hne; subst h
    simp [fetchPrevTxHashFromNetwork, fetchBody, fetchTry, guardFails, ha, hne]

theorem claim1_witness :
    fetchPrevTxHashFromNetwork (.threw "fetch failed") = .ok none ∧
    fetchPrevTxHashFromNetwork (.ret (some
      { ok := false, executionStatus := none, abortCode := none,
        decoded := .notMap })) = .ok none ∧
    fetchPrevTxHashFromNetwork (.ret (some
      { ok := true, executionStatus := some 5, abortCode := none,
        decoded := .notMap })) = .ok none ∧
    fetchPrevTxHashFromNetwork (.ret (some
      { ok := true, executionStatus := none, abortCode := some 3,
        decoded := .notMap })) = .ok none :=
  ⟨(claim1_fetch_never_throws _).2.1 "fetch failed" rfl,
   (claim1_fetch_never_throws _).2.2.1 _ rfl rfl,
   (claim1_fetch_never_throws _).2.2.2.1 _ 5 rfl rfl (by decide),
   (claim1_fetch_never_throws _).2.2.2.2 _ 3 rfl rfl (by decide)⟩

/-- Claim C2: buildWithPrevHash invokes the builder exactly once, with the
original arguments plus one options object whose prevTxHash key is present
exactly when the prefetch found a hash; in particular, a not-ok remote
response leads to a build call with no prevTxHash option. -/
theorem claim2_builder_gets_prev_hash_option (α β : Type) (o : NetOutcome)
    (buildFn : α → BuildOpts → β) (args : α) :
    (∀ h, fetchPrevTxHashFromNetwork o = .ok (some h) →
      buildWithPrevHash o buildFn args =
        .ok (buildFn args { prevTxHash := some h })) ∧
    (fetchPrevTxHashFromNetwork o = .ok none →
      buildWithPrevHash o buildFn args =
        .ok (buildFn args { prevTxHash := none })) ∧
    (∀ res, o = .ret res → okOf res = false →
      buildWithPrevHash o buildFn args =
        .ok (buildFn args { prevTxHash := none })) := by
  refine ⟨?_, ?_, ?_⟩
  · intro h hh; unfold buildWithPrevHash; rw [hh]; rfl
  · intro hh; unfold buildWithPrevHash; rw [hh]; rfl
  · intro res h hok; subst h
    have hfetch : fetchPrevTxHashFromNetwork (.ret res) = .ok none := by
      simp [fetchPrevTxHashFromNetwork, fetchBody, fetchTry, guardFails, hok]
    unfold buildWithPrevHash; rw [hfetch]; rfl

theorem claim2_witness :
    buildWithPrevHash (.ret (some
        { ok := false, executionStatus := none, abortCode := none,
          decoded := .notMap }))
      (fun (_ : Unit) (opts : BuildOpts) => opts) () =
      .ok { prevTxHash := none } :=
  (claim2_builder_gets_prev_hash_option Unit BuildOpts _ _ ()).2.2 _ rfl rfl

/-- Claim C3: every present prefetch result is exactly 32 bytes long, each
element an unsigned byte value; candidates of any other length or shape
are treated as absent. -/
theorem claim3_prev_hash_is_32_bytes (o : NetOutcome) (bs : Bytes)
    (h : fetchPrevTxHashFromNetwork o = .ok (some bs)) :
    bs.length = 32 ∧ ∀ b ∈ bs, (b : Nat) ≤ 255 := by
  refine ⟨?_, fun b _ => Nat.le_of_lt_succ b.isLt⟩
  cases o with
  | threw m => simp [fetchPrevTxHashFromNetwork, fetchBody] at h
  | ret res =>
    simp only [fetchPrevTxHashFromNetwork, fetchBody] at h
    simp only [Except.ok.injEq] at h
    unfold fetchTry at h
    by_cases hg : guardFails res
    · rw [if_pos hg] at h; simp at h
    · rw [if_neg hg] at h
      cases res with
      | none => simp at h
      | some r => exact extractLast_length h

theorem claim3_witness :
    fetchPrevTxHashFromNetwork resp32
      = .ok (some (List.replicate 32 (0 : Fin 256))) ∧
    (List.replicate 32 (0 : Fin 256)).length = 32 ∧
    ∀ b ∈ List.replicate 32 (0 : Fin 256), (b : Nat) ≤ 255 :=
  ⟨rfl, claim3_prev_hash_is_32_bytes resp32 _ rfl⟩

/-- Claim C4: when the send returns a response with ok false, sendAndReport
does not throw, still serializes the decoded body and prints it to stdout
(and writes the identical content to the outfile when one is given), and
sets the process exit code to 1. -/
theorem claim4_not_ok_reported_without_throw (stringify : SVal → String)
    (heap : Heap) (res : SendResult) (outfile : Option String) (quiet : Bool)
    (hheap : heapClosed heap = true) (hdec : valClosed heap res.decoded = true)
    (hok : res.ok = false) :
    ∃ s, serialize heap res.decoded = some s ∧
      sendAndReport stringify heap (.ret res) outfile quiet =
        .ok { stderrLines := if quiet then [] else [statusLine res],
              stdoutLines := [stringify s ++ "\n"],
              fileWrites :=
                match outfile with
                | some f => [(f, stringify s ++ "\n")]
                | none => [],
              exit1 := true } := by
  obtain ⟨s, hs⟩ := serialize_isSome hheap hdec
  refine ⟨s, hs, ?_⟩
  simp [sendAndReport, hs, hok]

theorem claim4_witness :
    ∃ s, serialize [] res400.decoded = some s ∧
      sendAndReport (fun _ => "null") [] (.ret res400) (some "out.json") false =
        .ok { stderrLines := [statusLine res400],
              stdoutLines := ["null" ++ "\n"],
              fileWrites := [("out.json", "null" ++ "\n")],
              exit1 := true } :=
  claim4_not_ok_reported_without_throw (fun _ => "null") [] res400
    (some "out.json") false rfl rfl rfl

/-- Claim C6: serialize terminates for every closed input value, cyclic
ones included, and a composite already being converted renders as the
fixed [Circular] sentinel at each revisited reference, instead of
recursing. -/
theorem claim6_serialize_terminates_on_cycles :
    (∀ heap v, heapClosed heap = true → valClosed heap v = true →
      ∃ s, serialize heap v = some s) ∧
    (∀ heap fuel seen id, id ∈ seen →
      conv heap fuel seen (.vref id) = some (.sstr "[Circular]", seen)) :=
  ⟨fun _ _ hh hv => serialize_isSome hh hv,
   fun heap fuel seen id h => conv_revisit heap fuel seen id h⟩

theorem claim6_witness :
    (∃ s, serialize [(0, HObj.arr [.vref 0])] (.vref 0) = some s) ∧
    conv [(0, HObj.arr [.vref 0])] 1 [0] (.vref 0)
      = some (.sstr "[Circular]", [0]) :=
  ⟨claim6_serialize_terminates_on_cycles.1 [(0, HObj.arr [.vref 0])]
      (.vref 0) (by decide) (by decide),
   claim6_serialize_terminates_on_cycles.2 [(0, HObj.arr [.vref 0])]
      1 [0] 0 (by decide)⟩

/-- Claim C7 as stated is refuted: an Int8Array is a typed-array view over
a buffer, yet serialize renders its signed JS element values; over the
byte 255 the rendered element is -1, which is not an unsigned byte value
between 0 and 255. -/
theorem claim7_counterexample :
    serialize [(0, HObj.view .int8 [(255 : Fin 256)])] (.vref 0)
      = some (.sarr [.snum (-1)]) ∧
    ¬(0 ≤ (-1 : Int) ∧ (-1 : Int) ≤ 255) :=
  ⟨by rfl, by decide⟩

/-- Claim C7 amended: for every DataView and every unsigned byte view over
a buffer, serialize produces the ordered sequence of its bytes, each
element an integer between 0 and 255; a signed byte view instead yields
its signed element values. -/
theorem claim7_amended (heap : Heap) (id : Nat) (k : ViewKind)
    (buf : List (Fin 256)) (hk : k ≠ .int8)
    (hl : List.lookup id heap = some (.view k buf)) :
    serialize heap (.vref id)
      = some (.sarr (buf.map fun b => .snum (b.val : Int))) ∧
    ∀ b ∈ buf, 0 ≤ (b.val : Int) ∧ (b.val : Int) ≤ 255 := by
  constructor
  · show (conv heap (heap.length + 1) [] (.vref id)).map Prod.fst = _
    have h1 : conv heap (heap.length + 1) [] (.vref id)
        = convStep heap (conv heap heap.length) [] (.vref id) := rfl
    rw [h1]
    simp only [convStep]
    rw [if_neg (by simp : ¬((id : Nat) ∈ ([] : List Nat))), hl]
    cases k with
    | uint8 => rfl
    | dataview => rfl
    | int8 => exact absurd rfl hk
  · intro b _
    exact ⟨Int.ofNat_nonneg _, by exact_mod_cast Nat.le_of_lt_succ b.isLt⟩

theorem claim7_witness :
    serialize [(0, HObj.view .uint8 [(7 : Fin 256), (255 : Fin 256)])]
        (.vref 0)
      = some (.sarr (([(7 : Fin 256), (255 : Fin 256)] : List (Fin 256)).map
          fun b => .snum (b.val : Int))) ∧
    ∀ b ∈ ([(7 : Fin 256), (255 : Fin 256)] : List (Fin 256)),
      0 ≤ (b.val : Int) ∧ (b.val : Int) ≤ 255 :=
  claim7_amended [(0, HObj.view .uint8 [(7 : Fin 256), (255 : Fin 256)])]
    0 .uint8 [(7 : Fin 256), (255 : Fin 256)] (by decide) rfl

/-- Claim C8: serializing a big integer yields its decimal string, the
amount parser toBigInt maps that string back to the same integer, and
serializing again yields the identical string; so serialize of parse of
serialize equals serialize on big integers. -/
theorem claim8_bigint_roundtrip (heap : Heap) (n : Int) :
    serialize heap (.vbig n) = some (.sstr (jsBigIntToString n)) ∧
    toBigInt (.astr (jsBigIntToString n)) = .ok n ∧
    (toBigInt (.astr (jsBigIntToString n))).map (fun m => jsBigIntToString m)
      = .ok (jsBigIntToString n) := by
  refine ⟨?_, toBigInt_roundtrip n, ?_⟩
  · show (conv heap (heap.length + 1) [] (.vbig n)).map Prod.fst = _
    rfl
  · rw [toBigInt_roundtrip n]; rfl

/-- Claim C10: conv only ever grows the seen set (objects are added on
first visit and never removed after their conversion completes), an
already-seen reference converts to the [Circular] sentinel even outside a
genuine cycle, and a shared acyclic reference is rendered once normally
and the second time as the sentinel. -/
theorem claim10_shared_refs_marked_circular :
    (∀ heap fuel seen v p, conv heap fuel seen v = some p → seen ⊆ p.2) ∧
    (∀ heap f seen id p, id ∉ seen →
      conv heap (f + 1) seen (.vref id) = some p → id ∈ p.2) ∧
    (∀ heap fuel seen id, id ∈ seen →
      conv heap fuel seen (.vref id) = some (.sstr "[Circular]", seen)) ∧
    serialize heapShared (.vref 1)
      = some (.sobj [("a", .sarr [.snum 1]), ("b", .sstr "[Circular]")]) :=
  ⟨fun heap => conv_subset heap,
   fun _ _ _ _ _ hns h => conv_enter hns h,
   fun heap fuel seen id h => conv_revisit heap fuel seen id h,
   by rfl⟩

theorem claim10_witness :
    ([] : List Nat) ⊆ [0, 1] ∧ (1 : Nat) ∈ [0, 1] ∧
    conv heapShared 2 [0, 1] (.vref 0) = some (.sstr "[Circular]", [0, 1]) :=
  ⟨claim10_shared_refs_marked_circular.1 heapShared 3 [] (.vref 1)
      (.sobj [("a", .sarr [.snum 1]), ("b", .sstr "[Circular]")], [0, 1]) rfl,
   claim10_shared_refs_marked_circular.2.1 heapShared 2 [] 1
      (.sobj [("a", .sarr [.snum 1]), ("b", .sstr "[Circular]")], [0, 1])
      (by decide) rfl,
   claim10_shared_refs_marked_circular.2.2.1 heapShared 2 [0, 1] 0 (by decide)⟩

/-- Claim C9: the keygen proxy attempts its three tiers in exactly the
order package-bin, PATH binary, npx; each later tier runs only after total
failure of the previous one, and none is skipped: when tier 1 spawns and
succeeds nothing else runs; when tier 1 fails (either its resolution
produced no usable spawn, or its spawn rejected) tier 2 runs next, and
tier 3 runs exactly when tier 2 rejected. -/
theorem claim9_keygen_tier_order (env : Env) (args : List String) :
    (∀ c1 ec, tier1Call env args = some c1 →
      spawnAndWait (env.spawnOutcome c1) = .ok ec →
      runKeygen env args = ([c1], .ok ec)) ∧
    (∀ c1 e1, tier1Call env args = some c1 →
      spawnAndWait (env.spawnOutcome c1) = .error e1 →
      (∀ ec2, spawnAndWait (env.spawnOutcome (tier2Call env args)) = .ok ec2 →
        runKeygen env args = ([c1, tier2Call env args], .ok ec2)) ∧
      (∀ e2, spawnAndWait (env.spawnOutcome (tier2Call env args)) = .error e2 →
        runKeygen env args =
          ([c1, tier2Call env args, tier3Call env args],
            spawnAndWait (env.spawnOutcome (tier3Call env args))))) ∧
    (tier1Call env args = none →
      (∀ ec2, spawnAndWait (env.spawnOutcome (tier2Call env args)) = .ok ec2 →
        runKeygen env args = ([tier2Call env args], .ok ec2)) ∧
      (∀ e2, spawnAndWait (env.spawnOutcome (tier2Call env args)) = .error e2 →
        runKeygen env args =
          ([tier2Call env args, tier3Call env args],
            spawnAndWait (env.spawnOutcome (tier3Call env args))))) := by
  refine ⟨?_, ?_, ?_⟩
  · intro c1 ec h1 hs
    simp [runKeygen, h1, hs]
  · intro c1 e1 h1 hs
    constructor
    · intro ec2 hs2
      simp [runKeygen, h1, hs, runKeygenTail, hs2]
    · intro e2 hs2
      simp [runKeygen, h1, hs, runKeygenTail, hs2]
  · intro h1
    constructor
    · intro ec2 hs2
      simp [runKeygen, h1, runKeygenTail, hs2]
    · intro e2 hs2
      simp [runKeygen, h1, runKeygenTail, hs2]

theorem claim9_witness :
    runKeygen envK ["new"] =
      ([tier2Call envK ["new"], tier3Call envK ["new"]],
        spawnAndWait (envK.spawnOutcome (tier3Call envK ["new"]))) :=
  ((claim9_keygen_tier_order envK ["new"]).2.2 rfl).2 "spawn ENOENT" rfl

/-- Claim C5 amended: the process exit code is 0 on success (a dispatched
command whose report leaves the exit flag unset, including the help path),
and 1 on any handler error, not-ok transaction result or unknown command;
a nonzero child exit code of the keygen proxy is mirrored as the process
exit code (the child's own code, not necessarily 1), and signal
termination of the final-tier child surfaces as a thrown error (a rejected
main promise). -/
theorem claim5_exit_codes (env : Env) :
    (∀ argv cmd rep, argv.head? ≠ some "keygen" →
      (parseArgs argv).command = some cmd → (parseArgs argv).help = false →
      dispatch env cmd (parseArgs argv) = .ok rep → rep.exit1 = false →
      main env argv = .ok
        { stdoutLines := rep.stdoutLines, stderrLines := rep.stderrLines,
          fileWrites := rep.fileWrites, exitCode := 0,
          spawnCalls := [] }) ∧
    (∀ argv cmd e, argv.head? ≠ some "keygen" →
      (parseArgs argv).command = some cmd → (parseArgs argv).help = false →
      dispatch env cmd (parseArgs argv) = .error e →
      ∃ out, main env argv = .ok out ∧ out.exitCode = 1) ∧
    (∀ argv cmd rep, argv.head? ≠ some "keygen" →
      (parseArgs argv).command = some cmd → (parseArgs argv).help = false →
      dispatch env cmd (parseArgs argv) = .ok rep → rep.exit1 = true →
      main env argv = .ok
        { stdoutLines := rep.stdoutLines, stderrLines := rep.stderrLines,
          fileWrites := rep.fileWrites, exitCode := 1,
          spawnCalls := [] }) ∧
    (∀ res, env.send = .ret res → res.ok = false →
      heapClosed env.heap = true → valClosed env.heap res.decoded = true →
      ∃ rep, dispatch env "get-current-supply"
          (parseArgs ["get-current-supply"]) = .ok rep ∧ rep.exit1 = true) ∧
    (∀ cmd, cmd.startsWith "-" = false → cmd ≠ "keygen" →
      cmd ∉ knownCommands →
      ∃ out, main env [cmd] = .ok out ∧ out.exitCode = 1) ∧
    (∀ rest code, tier1Call env rest = none → code ≠ 0 →
      env.spawnOutcome (tier2Call env rest) = .closed (some code) none →
      main env ("keygen" :: rest) = .ok
        { stdoutLines := [], stderrLines := [], fileWrites := [],
          exitCode := code, spawnCalls := [tier2Call env rest] }) ∧
    (∀ rest m sig, tier1Call env rest = none →
      env.spawnOutcome (tier2Call env rest) = .errorEvt m →
      env.spawnOutcome (tier3Call env rest) = .closed none sig →
      ∃ e, main env ("keygen" :: rest) = .error e) := by
  refine ⟨?_, ?_, ?_, ?_, ?_, ?_, ?_⟩
  · intro argv cmd rep hk hc hh hd he
    simp [main, hk, hc, hh, hd, he]
  · intro argv cmd e hk hc hh hd
    have hm : main env argv = .ok
        { stdoutLines := [env.stringify (.sobj [("error", .sstr e)]) ++ "\n"],
          stderrLines := [],
          fileWrites :=
            match (parseArgs argv).outfile with
            | some f =>
                [(f, env.stringify (.sobj [("error", .sstr e)]) ++ "\n")]
            | none => [],
          exitCode := 1, spawnCalls := [] } := by
      simp [main, hk, hc, hh, hd]
    exact ⟨_, hm, rfl⟩
  · intro argv cmd rep hk hc hh hd he
    simp [main, hk, hc, hh, hd, he]
  · intro res hsend hok hh hv
    obtain ⟨s, hs⟩ := serialize_isSome hh hv
    have hd : dispatch env "get-current-supply" (parseArgs ["get-current-supply"])
        = sendAndReport env.stringify env.heap env.send
            (parseArgs ["get-current-supply"]).outfile
            (parseArgs ["get-current-supply"]).quiet := rfl
    refine ⟨{ stderrLines :=
                if (parseArgs ["get-current-supply"]).quiet then []
                else [statusLine res],
              stdoutLines := [env.stringify s ++ "\n"],
              fileWrites :=
                match (parseArgs ["get-current-supply"]).outfile with
                | some f => [(f, env.stringify s ++ "\n")]
                | none => [],
              exit1 := true }, ?_, rfl⟩
    rw [hd, hsend]
    simp [sendAndReport, hs, hok]
  · intro cmd hdash hkey hmem
    simp only [knownCommands, List.mem_cons, List.not_mem_nil, or_false,
      not_or] at hmem
    obtain ⟨h1, h2, h3, h4, h5, h6, h7, h8, h9⟩ := hmem
    have hp : parseArgs [cmd] = { initialArgs with command := some cmd } := by
      simp [parseArgs, hdash, parseLoop]
    have hm : main env [cmd] = .ok
        { stdoutLines := [helpText ++ "\n"],
          stderrLines := ["Unknown command: " ++ cmd ++ "\n\n"],
          fileWrites := [], exitCode := 1, spawnCalls := [] } := by
      simp [main, hkey, hp, initialArgs, dispatch, h1, h2, h3, h4, h5, h6, h7,
        h8, h9]
    exact ⟨_, hm, rfl⟩
  · intro rest code h1 hcode hspawn
    simp [main, runKeygen, h1, runKeygenTail, hspawn, spawnAndWait, hcode]
  · intro rest m sig h1 h2 h3
    cases sig with
    | none =>
        refine ⟨"Process terminated with signal " ++ "UNKNOWN", ?_⟩
        simp [main, runKeygen, h1, runKeygenTail, h2, h3, spawnAndWait]
    | some sg =>
        refine ⟨"Process terminated with signal "
            ++ (if sg != "" then sg else "UNKNOWN"), ?_⟩
        simp [main, runKeygen, h1, runKeygenTail, h2, h3, spawnAndWait]

/-- Claim C5 as stated is refuted at a concrete input: a keygen child
process exiting with code 7 makes the whole invocation exit with code 7,
not 1 — the child's nonzero code is mirrored, not collapsed to 1. -/
theorem claim5_counterexample :
    main env7 ["keygen"] = .ok
      { stdoutLines := [], stderrLines := [], fileWrites := [],
        exitCode := 7,
        spawnCalls := [{ cmd := "lea-keygen", args := [], shell := false }] } ∧
    (7 : Int) ≠ 1 :=
  ⟨by rfl, by decide⟩

theorem claim5_witness :
    main env7 ["keygen"] = .ok
      { stdoutLines := [], stderrLines := [], fileWrites := [],
        exitCode := 7, spawnCalls := [tier2Call env7 []] } :=
  (claim5_exit_codes env7).2.2.2.2.2.1 [] 7 rfl (by decide) rfl

end Lea
